import Mathlib

/-!
A verification development for the `BuildAgentBase` class of
`src/agents/common/build-agent.ts`: a cross-platform CI build-agent
abstraction covering variable/input access, environment-variable string
expansion, tool-version caching and lookup, process execution and
PATH-based executable resolution.

The TypeScript source is embedded shallowly:
* the process environment is a partial map `Env := String → Option String`;
* the filesystem is a map from path strings to entry kinds plus a
  permission-denial predicate (`FS`);
* JavaScript string primitives (`trim`, `split`, `replace`,
  `toUpperCase`) are re-implemented over `List Char` so that every
  definition is executable;
* the `node:path` posix functions (`normalize`, `resolve`, `join`) and the
  `semver` package's `clean` are modelled from their documented behaviour,
  since they are external dependencies of the source;
* fallible operations return `Except String`, a thrown `Error` becoming
  `Except.error` of its message.
-/

namespace BuildAgent

/-- The process environment: a partial map from variable names to values,
mirroring `process.env`. -/
abbrev Env := String → Option String

/-! ## JavaScript string primitives over `List Char` -/

/-- JavaScript whitespace recognised by `String.prototype.trim` (ASCII
subset: space, tab, newline, carriage return, vertical tab, form feed). -/
def jsWsChar (c : Char) : Bool :=
  c = ' ' || c = '\t' || c = '\n' || c = '\r' || c = '\x0b' || c = '\x0c'

/-- Character-list core of `String.prototype.trim`: drop leading and
trailing whitespace. -/
def trimChars (l : List Char) : List Char :=
  ((l.dropWhile jsWsChar).reverse.dropWhile jsWsChar).reverse

/-- `String.prototype.trim`. -/
def jsTrim (s : String) : String :=
  String.mk (trimChars s.data)

/-- `String.prototype.toUpperCase` restricted to ASCII, which is all the
source applies it to. -/
def jsToUpper (s : String) : String :=
  String.mk (s.data.map Char.toUpper)

/-- Split a character list at every occurrence of the character `c`
(the behaviour of `String.prototype.split` with a one-character
separator, and of splitting a PATH string on the path delimiter). -/
def splitCharList (c : Char) : List Char → List (List Char)
  | [] => [[]]
  | x :: xs =>
    if x = c then [] :: splitCharList c xs
    else
      match splitCharList c xs with
      | [] => [[x]]
      | h :: t => (x :: h) :: t

/-- String-level wrapper for `splitCharList`. -/
def splitOnCh (c : Char) (s : String) : List String :=
  (splitCharList c s.data).map String.mk

/-- Join a list of strings with a separator (the behaviour of
`Array.prototype.join`). -/
def joinSep (sep : String) : List String → String
  | [] => ""
  | [x] => x
  | x :: y :: t => x ++ sep ++ joinSep sep (y :: t)

/-- Boolean prefix test on character lists, `isPre p l` holding when `p`
is an initial segment of `l`. -/
def isPre : List Char → List Char → Bool
  | [], _ => true
  | _ :: _, [] => false
  | a :: as, b :: bs => a = b && isPre as bs

/-! ## The `node:path` posix model

The source runs the posix flavour of `node:path` (the embedding fixes the
posix platform; the Windows-only deviations of `addPath` keep their
platform flag).  `normalize`, `resolve` and `join` are modelled from the
documented Node.js behaviour: segment-wise resolution of `.`, `..` and
repeated separators. -/

/-- Resolve `.`, `..` and empty segments of a path split on `/`.  `acc`
holds the already-resolved segments in reverse order.  `isAbs` controls
whether leading `..` segments escape (they are dropped at the root of an
absolute path, kept for a relative one). -/
def normSegs (isAbs : Bool) : List String → List String → List String
  | acc, [] => acc.reverse
  | acc, seg :: rest =>
    if seg = "" || seg = "." then normSegs isAbs acc rest
    else if seg = ".." then
      match acc with
      | [] => if isAbs then normSegs isAbs [] rest else normSegs isAbs [".."] rest
      | a :: as =>
        if a = ".." then normSegs isAbs (".." :: a :: as) rest
        else normSegs isAbs as rest
    else normSegs isAbs (seg :: acc) rest

/-- Whether a path string is absolute (starts with `/`). -/
def isAbsPath (p : String) : Bool :=
  p.data.head? = some '/'

/-- `path.posix.normalize`. -/
def posixNormalize (p : String) : String :=
  if p = "" then "."
  else
    let isAbs := isAbsPath p
    let hasTrail := p.data.getLast? = some '/' && p.length > 1
    let body := joinSep "/" (normSegs isAbs [] (splitOnCh '/' p))
    if isAbs then
      if body = "" then "/"
      else "/" ++ body ++ (if hasTrail then "/" else "")
    else
      if body = "" then (if hasTrail then "./" else ".")
      else body ++ (if hasTrail then "/" else "")

/-- `path.posix.resolve` with a single argument, against the current
working directory `cwd` (assumed absolute, as `process.cwd()` is). -/
def posixResolve (cwd p : String) : String :=
  let joined := if isAbsPath p then p else cwd ++ "/" ++ p
  let body := joinSep "/" (normSegs true [] (splitOnCh '/' joined))
  if body = "" then "/" else "/" ++ body

/-- `path.posix.join`: empty parts are skipped, the rest joined with `/`
and normalized. -/
def pathJoin (parts : List String) : String :=
  let j := joinSep "/" (parts.filter (fun s => !(s == "")))
  if j = "" then "." else posixNormalize j

/-! ## Variable and input accessors (`BuildAgentBase`) -/

/-- `getVariable(name)`: `(process.env[name] || '').trim()` followed by a
second `trim()` on return. Returns `""` (never `null`) when unset. -/
def getVariable (env : Env) (name : String) : String :=
  jsTrim (jsTrim ((env name).getD ""))

/-- `getVariableAsPath(name)`:
`path.resolve(path.normalize(this.getVariable(name)))`. -/
def getVariableAsPath (env : Env) (cwd : String) (name : String) : String :=
  posixResolve cwd (posixNormalize (getVariable env name))

/-- The `cacheDir` getter: `getVariableAsPath(this.cacheDirVariable)`. -/
def cacheDir (env : Env) (cwd : String) (cacheDirVariable : String) : String :=
  getVariableAsPath env cwd cacheDirVariable

/-- The key transform applied by `getInput`:
`input.replace(/ /g, '_').toUpperCase()`. -/
def inputKeyTransform (input : String) : String :=
  jsToUpper (String.mk (input.data.map fun c => if c = ' ' then '_' else c))

/-- `getInput(input, required)`: looks the transformed key up under the
`INPUT_` prefix via `getVariable`; throws when required and empty;
otherwise returns the trimmed value. -/
def getInput (env : Env) (input : String) (required : Bool) :
    Except String String :=
  let inputProp := inputKeyTransform input
  let val := getVariable env ("INPUT_" ++ inputProp)
  if required && (val == "") then
    .error ("Input required and not supplied: " ++ inputProp)
  else
    .ok (jsTrim val)

/-- `String.prototype.split` with a non-empty string separator, on
character lists. -/
def jsSplitChars (delim : List Char) : List Char → List (List Char)
  | [] => [[]]
  | c :: rest =>
    if isPre delim (c :: rest) then
      [] :: jsSplitChars delim (List.drop (delim.length - 1) rest)
    else
      match jsSplitChars delim rest with
      | [] => [[c]]
      | h :: t => (c :: h) :: t
termination_by l => l.length
decreasing_by
  all_goals simp only [List.length_cons, List.length_drop]; omega

/-- `String.prototype.split` with a non-empty string separator. -/
def jsSplit (delim : String) (s : String) : List String :=
  (jsSplitChars delim.data s.data).map String.mk

/-- The filter callback of `getDelimitedInput`:
`x => { if (x) return x.trim() }`, kept when the returned value is
truthy. -/
def delimitedKeep (x : String) : Bool :=
  if x == "" then false else !(jsTrim x == "")

/-- `getDelimitedInput(input, delimiter, required)`: split the input value
on the delimiter and keep the entries whose trimmed form is non-empty. -/
def getDelimitedInput (env : Env) (input delimiter : String)
    (required : Bool) : Except String (List String) := do
  let v ← getInput env input required
  pure ((jsSplit delimiter v).filter delimitedKeep)

/-- `getListInput(input, required)`: `getDelimitedInput` with `'\n'`. -/
def getListInput (env : Env) (input : String) (required : Bool) :
    Except String (List String) :=
  getDelimitedInput env input "\n" required

/-! ## Environment-variable expansion (`getExpandedString`)

The source replaces, in a single left-to-right pass of
`String.prototype.replace` with the global regex
`\$([a-zA-Z_][a-zA-Z0-9_]*|\x7b([a-zA-Z_][a-zA-Z0-9_]*)\x7d)`,
each matched reference by `process.env[name.toUpperCase()] ?? ''`.
Positions where the regex fails to match are copied verbatim and the
scan advances one character, exactly as the JS regex engine does; a
substituted value is never rescanned. -/

/-- First character class of a reference name: `[a-zA-Z_]`. -/
def isNameStart (c : Char) : Bool :=
  c.isAlpha || c = '_'

/-- Continuation character class of a reference name: `[a-zA-Z0-9_]`. -/
def isNameCh (c : Char) : Bool :=
  c.isAlphanum || c = '_'

/-- The replacement value for a matched name:
`process.env[name.toUpperCase()] ?? ''`. -/
def expandLookup (env : Env) (nameChars : List Char) : List Char :=
  ((env (jsToUpper (String.mk nameChars))).getD "").data

/-- One pass of the global regex replacement of `getExpandedString`. -/
def expandChars (env : Env) : List Char → List Char
  | [] => []
  | '$' :: '{' :: c :: r3 =>
    if isNameStart c then
      let rem := r3.dropWhile isNameCh
      if rem.head? = some '}' then
        expandLookup env (c :: r3.takeWhile isNameCh) ++ expandChars env rem.tail
      else
        '$' :: expandChars env ('{' :: c :: r3)
    else
      '$' :: expandChars env ('{' :: c :: r3)
  | ['$', '{'] => ['$', '{']
  | '$' :: c :: r2 =>
    if isNameStart c then
      expandLookup env (c :: r2.takeWhile isNameCh) ++ expandChars env (r2.dropWhile isNameCh)
    else
      '$' :: expandChars env (c :: r2)
  | ['$'] => ['$']
  | c :: rest => c :: expandChars env rest
termination_by l => l.length
decreasing_by
  all_goals
    have hdw : ∀ l : List Char, (l.dropWhile isNameCh).length ≤ l.length := by
      intro l
      induction l with
      | nil => simp
      | cons a t ih =>
        by_cases hq : isNameCh a
        · rw [List.dropWhile_cons_of_pos hq]
          simp
          omega
        · rw [List.dropWhile_cons_of_neg hq]
  · have h1 := hdw r3
    have h2 : (r3.dropWhile isNameCh).tail.length = (r3.dropWhile isNameCh).length - 1 :=
      List.length_tail (r3.dropWhile isNameCh)
    simp only [List.length_cons]
    omega
  · simp only [List.length_cons]; omega
  · simp only [List.length_cons]; omega
  · have := hdw r2
    simp only [List.length_cons]
    omega
  · simp only [List.length_cons]; omega
  · simp only [List.length_cons]; omega

/-- `getExpandedString(pattern)`. -/
def getExpandedString (env : Env) (pattern : String) : String :=
  String.mk (expandChars env pattern.data)

/-! ## Filesystem model

Paths are plain strings, as in the source.  An `FS` maps a path to the
kind of entry living there (`none` when nothing exists) and carries a
predicate marking paths whose `fs.access`/`fs.stat` raise (permission
failures).  Directory trees are related through raw string paths:
everything below a directory `d` is addressed as `d ++ "/" ++ suffix`. -/

/-- What `fs.stat` can report a path to be. -/
inductive FsKind where
  | dir
  | file
  | other
deriving DecidableEq

/-- The filesystem state. -/
structure FS where
  entry : String → Option FsKind
  denied : String → Bool

/-- `fs.access(p)`: resolves iff the path exists and is not denied. -/
def fsAccess (fs : FS) (p : String) : Except Unit Unit :=
  if fs.denied p then .error ()
  else
    match fs.entry p with
    | some _ => .ok ()
    | none => .error ()

/-- `fs.stat(p)`: returns the entry kind iff the path exists and is not
denied. -/
def fsStat (fs : FS) (p : String) : Except Unit FsKind :=
  if fs.denied p then .error ()
  else
    match fs.entry p with
    | some k => .ok k
    | none => .error ()

/-- `directoryExists(dir)`: `fs.access` then `stat().isDirectory()`, with
every raised error absorbed into `false`. -/
def directoryExists (fs : FS) (p : String) : Bool :=
  match fsAccess fs p with
  | .error _ => false
  | .ok _ =>
    match fsStat fs p with
    | .error _ => false
    | .ok k => k == .dir

/-- `fileExists(file)`: `fs.access` then `stat().isFile()`, with every
raised error absorbed into `false`. -/
def fileExists (fs : FS) (p : String) : Bool :=
  match fsAccess fs p with
  | .error _ => false
  | .ok _ =>
    match fsStat fs p with
    | .error _ => false
    | .ok k => k == .file

/-- Position of a path `p` relative to a directory path `base`:
`some ""` when `p` is `base` itself, `some ("/" ++ rest)` when `p`
lies strictly below `base`, `none` when `p` is outside `base`'s tree. -/
def relTo (base p : String) : Option String :=
  if p.data = base.data then some ""
  else if isPre (base.data ++ ['/']) p.data then
    some (String.mk (p.data.drop base.data.length))
  else none

/-- `fs.rm(dir, { recursive: true, force: true, ... })`: remove the whole
tree below `dir` (a missing target is not an error). -/
def removeDirFs (fs : FS) (d : String) : FS :=
  ⟨fun p => if (relTo d p).isSome then none else fs.entry p, fs.denied⟩

/-- `fs.mkdir(dest, { recursive: true })`: `dest` and every ancestor
becomes a directory. -/
def mkdirpFs (fs : FS) (d : String) : FS :=
  ⟨fun p => if (relTo p d).isSome then some .dir else fs.entry p, fs.denied⟩

/-- `fs.cp(src, dest, { recursive: true, force: true })`: every path in
`dest`'s tree now holds what the corresponding path of `src`'s tree
holds; paths outside `dest`'s tree are unchanged. -/
def cpTreeFs (fs : FS) (src d : String) : FS :=
  ⟨fun p =>
    match relTo d p with
    | some s => fs.entry (src ++ s)
    | none => fs.entry p,
  fs.denied⟩

/-! ## The `semver` package's `clean`

Modelled from the documented behaviour of the `semver` npm package, an
external dependency of the source: trim, strip leading `=`/`v`, parse
`major.minor.patch` with optional `-prerelease` and `+build`, and return
the canonical `major.minor.patch[-prerelease]` form, or `null` for a
string that is not valid semver.  Both cache operations call it through
the identical `semver.clean(version) || version` fallback, which is all
the claims depend on. -/

/-- Strict non-negative integer parse: non-empty, digits only, no leading
zero. -/
def parseNumStrict (s : List Char) : Option Nat :=
  if s = [] then none
  else if s.any (fun c => !c.isDigit) then none
  else if s.length > 1 && s.head? = some '0' then none
  else some (s.foldl (fun n c => n * 10 + (c.toNat - '0'.toNat)) 0)

/-- A prerelease identifier: non-empty, `[0-9A-Za-z-]`, and a purely
numeric identifier has no leading zero. -/
def validIdent (s : String) : Bool :=
  !(s.data = []) &&
  s.data.all (fun c => c.isAlphanum || c = '-') &&
  (if s.data.all (fun c => c.isDigit) then
    (s.data.length = 1 || !(s.data.head? = some '0')) else true)

/-- `semver.clean(version)`. -/
def semverClean (v : String) : Option String :=
  let t := String.mk ((jsTrim v).data.dropWhile (fun c => c = '=' || c = 'v'))
  match splitOnCh '+' t with
  | [] => none
  | main :: _build =>
    match splitOnCh '-' main with
    | [] => none
    | core :: preParts =>
      match splitOnCh '.' core with
      | [a, b, c] => do
        let x ← parseNumStrict a.data
        let y ← parseNumStrict b.data
        let z ← parseNumStrict c.data
        let preStr := joinSep "-" preParts
        if preParts = [] then
          some (toString x ++ "." ++ toString y ++ "." ++ toString z)
        else if (splitOnCh '.' preStr).all validIdent then
          some (toString x ++ "." ++ toString y ++ "." ++ toString z ++ "-" ++ preStr)
        else none
      | _ => none

/-! ## Tool cache operations

`cacheToolDirectory` and `findLocalTool` of `BuildAgentBase`.  Thrown
errors become `Except.error` of the message; the filesystem effect of a
successful `cacheToolDirectory` is returned next to the destination
path. -/

/-- The destination schema of the tool cache:
`<cacheRoot>/<tool>/<cleanedVersion>` with the cache root read from the
host's cache-directory variable. -/
def cacheDestPath (env : Env) (cwd cacheDirVariable tool version : String) : String :=
  pathJoin [cacheDir env cwd cacheDirVariable, tool, (semverClean version).getD version]

/-- The filesystem effect of a successful `cacheToolDirectory`: remove
the destination tree when it already exists, create the destination
directory (with ancestors), then copy the source tree over it. -/
def cacheStepFs (fs : FS) (sourceDir destPath : String) : FS :=
  cpTreeFs
    (mkdirpFs (if directoryExists fs destPath then removeDirFs fs destPath else fs)
      destPath)
    sourceDir destPath

/-- `cacheToolDirectory(sourceDir, tool, version)`. -/
def cacheToolDirectory (env : Env) (cwd cacheDirVariable : String) (fs : FS)
    (sourceDir tool version : String) : Except String (String × FS) :=
  if tool = "" then .error "tool is a required parameter"
  else if version = "" then .error "version is a required parameter"
  else if sourceDir = "" then .error "sourceDir is a required parameter"
  else
    let cacheRoot := cacheDir env cwd cacheDirVariable
    if cacheRoot = "" then .ok ("", fs)
    else
      let version := (semverClean version).getD version
      let destPath := pathJoin [cacheRoot, tool, version]
      .ok (destPath, cacheStepFs fs sourceDir destPath)

/-- `findLocalTool(toolName, versionSpec)`. -/
def findLocalTool (env : Env) (cwd cacheDirVariable : String) (fs : FS)
    (toolName versionSpec : String) : Except String (Option String) :=
  if toolName = "" then .error "toolName is a required parameter"
  else if versionSpec = "" then .error "versionSpec is a required parameter"
  else
    let cacheRoot := cacheDir env cwd cacheDirVariable
    if cacheRoot = "" then .ok none
    else
      let versionSpec := (semverClean versionSpec).getD versionSpec
      let toolPath := pathJoin [cacheRoot, toolName, versionSpec]
      if !(directoryExists fs toolPath) then .ok none
      else .ok (some toolPath)

/-! ## Process executor -/

/-- The result shape of one process invocation (`models.ts`, given in the
spec as `{ code, error, stdout, stderr }`). -/
structure ExecResult where
  code : Option Int
  error : Option String
  stdout : String
  stderr : String
deriving DecidableEq

/-- What the underlying `child_process.exec` promise can do for a given
command line: resolve with captured output, or reject with an error
carrying an exit code (absent for signal termination or spawn failure),
a message, and whatever output was captured before the failure. -/
inductive SpawnOutcome where
  | success (stdout stderr : String)
  | failure (code : Option Int) (message : String) (stdout stderr : String)

/-- The command line built by `exec`:
a plain join, no shell escaping. -/
def execCmdLine (cmd : String) (args : List String) : String :=
  cmd ++ " " ++ joinSep " " args

/-- `exec(cmd, args)`: run the joined command line and fold both the
resolved and the rejected promise into an `ExecResult`; the function
itself is total and never throws. -/
def execRun (runner : String → SpawnOutcome) (cmd : String)
    (args : List String) : ExecResult :=
  match runner (execCmdLine cmd args) with
  | .success out err => ⟨some 0, none, out, err⟩
  | .failure c msg out err => ⟨c, some msg, out, err⟩

/-! ## Executable locator -/

/-- Modelled from the spec: `lookPath` lives in
`src/agents/common/lookPath.ts`, which is not part of the sources; the
spec describes it as searching each directory of the process `PATH`
(split on the platform delimiter) for an executable match and returning
the first hit, with no match — including an unset `PATH` — yielding
nothing.  `isExec` abstracts the read-only existence probing. -/
def lookPath (env : Env) (isExec : String → Bool) (tool : String) :
    Option String :=
  (env "PATH").bind fun p =>
    (splitOnCh ':' p).findSome? fun d =>
      let cand := d ++ "/" ++ tool
      if isExec cand then some cand else none

/-- `which(tool, check?)`: resolve the first `lookPath` hit to a
canonical absolute path, throw a not-found error naming the tool
otherwise.  The `check` flag is unused in the source. -/
def which (env : Env) (isExec : String → Bool) (cwd tool : String) :
    Except String String :=
  match lookPath env isExec tool with
  | some toolPath => .ok (posixResolve cwd toolPath)
  | none => .error ("Unable to locate executable file: " ++ tool)

/-! ## PATH mutation -/

/-- `addPath(inputPath)`: prepend to the platform PATH variable (`Path`
on win32, `PATH` elsewhere, with `;`/`:` as delimiter) and defensively
set the literal `Path` variable to the same value.  JavaScript string
concatenation turns an unset previous value into the text
`"undefined"`. -/
def addPath (isWin32 : Bool) (env : Env) (inputPath : String) : Env :=
  let envName := if isWin32 then "Path" else "PATH"
  let delim := if isWin32 then ";" else ":"
  let newPath := inputPath ++ delim ++
    (match env envName with
     | some v => v
     | none => "undefined")
  fun n =>
    if n = "Path" then some newPath
    else if n = envName then some newPath
    else env n

/-! ## Concrete instantiations used by the claims and witnesses -/

/-- An empty filesystem, used for concrete instantiations. -/
def emptyFs : FS := ⟨fun _ => none, fun _ => false⟩

/-- The environment of the C1 failing input: every variable, in
particular the host cache-directory variable, is unset. -/
def c1Env : Env := fun _ => none

/-- The filesystem of the C1 failing input: a tool directory exists under
the current working directory `/work` (where the code, not the spec,
ends up looking). -/
def c1Fs : FS :=
  ⟨fun p => if p = "/work/tool/1.2.3" then some .dir else none, fun _ => false⟩

/-- The environment of the C3 witness: one whitespace-only input, one
input with surrounding whitespace. -/
def c3Env : Env := fun n =>
  if n = "INPUT_MY_KEY" then some "  "
  else if n = "INPUT_OTHER_KEY" then some " x " else none

/-- The environment of the C9 witness: the spec's example list input. -/
def c9Env : Env := fun n => if n = "INPUT_LIST" then some "a\nb\n\nc" else none

/-- The PATH layout of the C7 witness. -/
def c7Env : Env := fun n => if n = "PATH" then some "/usr/bin:/bin" else none

/-- The executable probe of the C7 witness: only `/bin/tool` exists. -/
def c7Exec : String → Bool := fun p => p == "/bin/tool"

/-- The prior environment of the C8 witness. -/
def c8Env : Env := fun n => if n = "PATH" then some "/usr/bin" else none

/-- The all-unset environment of the C2 counterexample. -/
def c2Env : Env := fun _ => none

/-- The environment of the spec's expansion example. -/
def c2ExampleEnv : Env := fun n =>
  if n = "HOME" then some "/h" else if n = "USER" then some "u" else none

/-- An environment whose value contains a further `$` reference, showing
that substituted values are not rescanned. -/
def c2RecEnv : Env := fun n =>
  if n = "A" then some "$B" else if n = "B" then some "x" else none

/-- The environment of the C4 witness: the cache variable points at
`/cache`. -/
def c4Env : Env := fun n => if n = "CACHE_DIR" then some "/cache" else none

/-- The filesystem of the C4 witness: a source directory `/src`
containing one file. -/
def c4Fs : FS :=
  ⟨fun p => if p = "/src" then some .dir
    else if p = "/src/f.txt" then some .file else none,
  fun _ => false⟩

/-! ### Lemmas about the string primitives -/

theorem dropWhile_dropWhile (p : Char → Bool) (l : List Char) :
    (l.dropWhile p).dropWhile p = l.dropWhile p := by
  induction l with
  | nil => rfl
  | cons a t ih =>
    by_cases h : p a
    · simp [List.dropWhile_cons, h, ih]
    · simp [List.dropWhile_cons, h]

theorem length_dw_le (p : Char → Bool) (l : List Char) :
    (l.dropWhile p).length ≤ l.length := by
  induction l with
  | nil => simp
  | cons a t ih =>
    by_cases h : p a
    · rw [List.dropWhile_cons_of_pos h]; simp; omega
    · rw [List.dropWhile_cons_of_neg h]

theorem noLead_cons (p : Char → Bool) (c : Char) (cs : List Char)
    (h : (c :: cs).dropWhile p = c :: cs) : p c = false := by
  by_cases hc : p c
  · rw [List.dropWhile_cons_of_pos hc] at h
    have hlen := congrArg List.length h
    have hle := length_dw_le p cs
    simp at hlen
    omega
  · simpa using hc

theorem noLead_of_heads (p : Char → Bool) (l : List Char)
    (h : ∀ c cs, l = c :: cs → p c = false) : l.dropWhile p = l := by
  cases l with
  | nil => rfl
  | cons c cs => exact List.dropWhile_cons_of_neg (by simp [h c cs rfl])

theorem trimChars_idem (l : List Char) : trimChars (trimChars l) = trimChars l := by
  unfold trimChars
  set A := l.dropWhile jsWsChar with hAdef
  have hA : A.dropWhile jsWsChar = A := dropWhile_dropWhile jsWsChar l
  set M := A.reverse.dropWhile jsWsChar with hMdef
  have hM : M.dropWhile jsWsChar = M := dropWhile_dropWhile jsWsChar A.reverse
  have hsplit : A.reverse.takeWhile jsWsChar ++ M = A.reverse := by
    rw [hMdef]; exact List.takeWhile_append_dropWhile jsWsChar A.reverse
  have hArev : A = M.reverse ++ (A.reverse.takeWhile jsWsChar).reverse := by
    have h := congrArg List.reverse hsplit
    simp at h
    exact h.symm
  have hMrev : M.reverse.dropWhile jsWsChar = M.reverse := by
    apply noLead_of_heads
    intro c cs hc
    have hAc : A = c :: (cs ++ (A.reverse.takeWhile jsWsChar).reverse) := by
      conv_lhs => rw [hArev]
      rw [hc]
      simp
    apply noLead_cons jsWsChar c
    rw [← hAc]
    exact hA
  rw [hMrev]
  simp [hM]

theorem jsTrim_idem (s : String) : jsTrim (jsTrim s) = jsTrim s := by
  unfold jsTrim
  exact congrArg String.mk (trimChars_idem s.data)

theorem jsTrim_empty : jsTrim "" = "" := rfl

theorem isPre_append (l t : List Char) : isPre l (l ++ t) = true := by
  induction l with
  | nil => rfl
  | cons a as ih => simp [isPre, ih]

theorem isPre_length_le (a b : List Char) (h : isPre a b = true) :
    a.length ≤ b.length := by
  induction a generalizing b with
  | nil => simp
  | cons x xs ih =>
    cases b with
    | nil => simp [isPre] at h
    | cons y ys =>
      simp only [isPre, Bool.and_eq_true] at h
      have := ih ys h.2
      simp
      omega

theorem isPre_total_of (a b c : List Char) (ha : isPre a c = true)
    (hb : isPre b c = true) : isPre a b = true ∨ isPre b a = true := by
  induction c generalizing a b with
  | nil =>
    cases a with
    | nil => left; rfl
    | cons x xs => simp [isPre] at ha
  | cons z zs ih =>
    cases a with
    | nil => left; rfl
    | cons x xs =>
      cases b with
      | nil => right; rfl
      | cons y ys =>
        simp only [isPre, Bool.and_eq_true, decide_eq_true_eq] at ha hb
        obtain ⟨hxz, ha2⟩ := ha
        obtain ⟨hyz, hb2⟩ := hb
        rcases ih xs ys ha2 hb2 with h | h
        · left; simp [isPre, hxz, hyz, h]
        · right; simp [isPre, hxz, hyz, h]

theorem isPre_of_append_single (l m : List Char) (c : Char)
    (h : isPre l (m ++ [c]) = true) (hlen : l.length ≤ m.length) :
    isPre l m = true := by
  induction l generalizing m with
  | nil => rfl
  | cons x xs ih =>
    cases m with
    | nil => simp at hlen
    | cons y ys =>
      simp only [List.cons_append, isPre, Bool.and_eq_true] at h ⊢
      refine ⟨h.1, ih ys h.2 ?_⟩
      simp at hlen
      omega

theorem isPre_refl (l : List Char) : isPre l l = true := by
  have := isPre_append l []
  simpa using this

theorem eq_of_isPre_length (a b : List Char) (h : isPre a b = true)
    (hlen : a.length = b.length) : a = b := by
  induction a generalizing b with
  | nil => cases b with
    | nil => rfl
    | cons y ys => simp at hlen
  | cons x xs ih =>
    cases b with
    | nil => simp [isPre] at h
    | cons y ys =>
      simp only [isPre, Bool.and_eq_true, decide_eq_true_eq] at h
      simp only [List.length_cons] at hlen
      rw [h.1, ih ys h.2 (by omega)]

/-! ## Helper lemmas -/

theorem isPre_trans (a b c : List Char) (hab : isPre a b = true)
    (hbc : isPre b c = true) : isPre a c = true := by
  induction a generalizing b c with
  | nil => rfl
  | cons x xs ih =>
    cases b with
    | nil => simp [isPre] at hab
    | cons y ys =>
      cases c with
      | nil => simp [isPre] at hbc
      | cons z zs =>
        simp only [isPre, Bool.and_eq_true, decide_eq_true_eq] at hab hbc ⊢
        exact ⟨hab.1.trans hbc.1, ih ys zs hab.2 hbc.2⟩

theorem takeWhile_append_stop (p : Char → Bool) (l r : List Char)
    (hl : l.all p = true) (hr : ∀ x xs, r = x :: xs → p x = false) :
    (l ++ r).takeWhile p = l := by
  induction l with
  | nil =>
    cases r with
    | nil => rfl
    | cons x xs => simp [List.takeWhile_cons, hr x xs rfl]
  | cons a as ih =>
    simp only [List.all_cons, Bool.and_eq_true] at hl
    simp [List.takeWhile_cons, hl.1, ih hl.2]

theorem dropWhile_append_stop (p : Char → Bool) (l r : List Char)
    (hl : l.all p = true) (hr : ∀ x xs, r = x :: xs → p x = false) :
    (l ++ r).dropWhile p = r := by
  induction l with
  | nil =>
    cases r with
    | nil => rfl
    | cons x xs => simp [List.dropWhile_cons, hr x xs rfl]
  | cons a as ih =>
    simp only [List.all_cons, Bool.and_eq_true] at hl
    simp [List.dropWhile_cons, hl.1, ih hl.2]

theorem splitCharList_append (c : Char) (l r : List Char) (hl : c ∉ l) :
    splitCharList c (l ++ c :: r) = l :: splitCharList c r := by
  induction l with
  | nil => simp [splitCharList]
  | cons x xs ih =>
    simp only [List.mem_cons, not_or] at hl
    have hx : ¬(x = c) := fun h => hl.1 h.symm
    simp only [List.cons_append, splitCharList, if_neg hx, List.append_eq]
    rw [ih hl.2]

theorem findSome?_append_first {α β : Type} (f : α → Option β)
    (l1 : List α) (d : α) (l2 : List α) (y : β)
    (h1 : ∀ x ∈ l1, f x = none) (hd : f d = some y) :
    (l1 ++ d :: l2).findSome? f = some y := by
  induction l1 with
  | nil => simp [List.findSome?, hd]
  | cons a as ih =>
    have ha : f a = none := h1 a (by simp)
    simp only [List.cons_append, List.findSome?, ha]
    exact ih fun x hx => h1 x (by simp [hx])

theorem relTo_none_iff (b p : String) :
    relTo b p = none ↔
      p.data ≠ b.data ∧ isPre (b.data ++ ['/']) p.data = false := by
  unfold relTo
  split_ifs with h1 h2 <;> simp_all

theorem relTo_self (b : String) : relTo b b = some "" := by
  unfold relTo
  simp

theorem slash_append_eq (s : String) : "/" ++ s = String.mk ('/' :: s.data) := by
  cases s
  rfl

theorem relTo_append (b s : String) :
    relTo b ((b ++ "/") ++ s) = some ("/" ++ s) := by
  unfold relTo
  have hdata : ((b ++ "/") ++ s).data = b.data ++ ('/' :: s.data) := by
    simp [String.data_append]
  rw [hdata]
  have hne : ¬(b.data ++ ('/' :: s.data) = b.data) := by
    intro h
    have := congrArg List.length h
    simp at this
  rw [if_neg hne]
  have hpre : isPre (b.data ++ ['/']) (b.data ++ ('/' :: s.data)) = true := by
    have h2 : b.data ++ ('/' :: s.data) = (b.data ++ ['/']) ++ s.data := by simp
    rw [h2]
    exact isPre_append _ _
  rw [if_pos (by simp [hpre])]
  rw [List.drop_left]
  rw [slash_append_eq]

theorem relTo_lower_right (d s t : String) (h2 : relTo s d = none) :
    relTo ((s ++ "/") ++ t) d = none := by
  rw [relTo_none_iff] at h2 ⊢
  have hdata : ((s ++ "/") ++ t).data = (s.data ++ ['/']) ++ t.data := by
    simp [String.data_append]
  rw [hdata]
  constructor
  · intro h
    apply absurd h2.2
    simp only [Bool.not_eq_false]
    rw [h]
    exact isPre_append _ _
  · by_contra hcon
    simp only [Bool.not_eq_false] at hcon
    apply absurd h2.2
    simp only [Bool.not_eq_false]
    have hstep : isPre (s.data ++ ['/']) (((s.data ++ ['/']) ++ t.data) ++ ['/']) = true := by
      have h3 : ((s.data ++ ['/']) ++ t.data) ++ ['/'] = (s.data ++ ['/']) ++ (t.data ++ ['/']) := by
        simp
      rw [h3]
      exact isPre_append _ _
    exact isPre_trans _ _ _ hstep hcon

theorem relTo_lower_left (d s t : String) (h1 : relTo d s = none)
    (h2 : relTo s d = none) : relTo d ((s ++ "/") ++ t) = none := by
  rw [relTo_none_iff] at h1 h2 ⊢
  have hdata : ((s ++ "/") ++ t).data = (s.data ++ ['/']) ++ t.data := by
    simp [String.data_append]
  rw [hdata]
  constructor
  · intro h
    apply absurd h2.2
    simp only [Bool.not_eq_false]
    rw [← h]
    exact isPre_append _ _
  · by_contra hcon
    simp only [Bool.not_eq_false] at hcon
    have hsp : isPre (s.data ++ ['/']) ((s.data ++ ['/']) ++ t.data) = true :=
      isPre_append _ _
    rcases isPre_total_of _ _ _ hcon hsp with hds | hsd
    · by_cases hlen : (d.data ++ ['/']).length ≤ s.data.length
      · have : isPre (d.data ++ ['/']) s.data = true :=
          isPre_of_append_single _ _ '/' hds hlen
        exact absurd this (by simp [h1.2])
      · have hle := isPre_length_le _ _ hds
        simp only [List.length_append, List.length_cons, List.length_nil] at hle hlen
        have heq : (d.data ++ ['/']).length = (s.data ++ ['/']).length := by
          simp only [List.length_append, List.length_cons, List.length_nil]
          omega
        have := eq_of_isPre_length _ _ hds heq
        have hdd : d.data = s.data := by
          have h4 := congrArg (fun l => List.take (d.data.length) l) this
          simp only at h4
          rw [List.take_left] at h4
          have h5 : d.data.length = s.data.length := by
            simp only [List.length_append, List.length_cons, List.length_nil] at heq
            omega
          rw [h5, List.take_left] at h4
          exact h4
        exact absurd hdd.symm h1.1
    · by_cases hlen : (s.data ++ ['/']).length ≤ d.data.length
      · have : isPre (s.data ++ ['/']) d.data = true :=
          isPre_of_append_single _ _ '/' hsd hlen
        exact absurd this (by simp [h2.2])
      · have hle := isPre_length_le _ _ hsd
        simp only [List.length_append, List.length_cons, List.length_nil] at hle hlen
        have heq : (s.data ++ ['/']).length = (d.data ++ ['/']).length := by
          simp only [List.length_append, List.length_cons, List.length_nil]
          omega
        have := eq_of_isPre_length _ _ hsd heq
        have hdd : s.data = d.data := by
          have h4 := congrArg (fun l => List.take (s.data.length) l) this
          simp only at h4
          rw [List.take_left] at h4
          have h5 : s.data.length = d.data.length := by
            simp only [List.length_append, List.length_cons, List.length_nil] at heq
            omega
          rw [h5, List.take_left] at h4
          exact h4
        exact absurd hdd h1.1

theorem removeDirFs_entry_outside (fs : FS) (d p : String)
    (h : relTo d p = none) : (removeDirFs fs d).entry p = fs.entry p := by
  simp [removeDirFs, h]

theorem mkdirpFs_entry_outside (fs : FS) (d p : String)
    (h : relTo p d = none) : (mkdirpFs fs d).entry p = fs.entry p := by
  simp [mkdirpFs, h]

theorem cpTreeFs_entry_inside (fs : FS) (src d p s : String)
    (h : relTo d p = some s) : (cpTreeFs fs src d).entry p = fs.entry (src ++ s) := by
  simp [cpTreeFs, h]

theorem removeDirFs_denied (fs : FS) (d : String) :
    (removeDirFs fs d).denied = fs.denied := rfl

theorem mkdirpFs_denied (fs : FS) (d : String) :
    (mkdirpFs fs d).denied = fs.denied := rfl

theorem cpTreeFs_denied (fs : FS) (src d : String) :
    (cpTreeFs fs src d).denied = fs.denied := rfl

theorem head?_append_left {c : Char} (l1 l2 : List Char)
    (h : l1.head? = some c) : (l1 ++ l2).head? = some c := by
  cases l1 with
  | nil => simp at h
  | cons a t => simpa using h

theorem ne_empty_of_head (s : String) (h : s.data.head? = some '/') :
    s ≠ "" := by
  intro he
  rw [he] at h
  simp at h

theorem posixNormalize_abs (p : String) (h : p.data.head? = some '/') :
    (posixNormalize p).data.head? = some '/' := by
  have hne : p ≠ "" := ne_empty_of_head p h
  have habs : isAbsPath p = true := by
    simp [isAbsPath, h]
  unfold posixNormalize
  rw [if_neg hne]
  simp only [habs, if_true]
  split_ifs with hb ht
  · rfl
  · rw [String.data_append, slash_append_eq]
    exact head?_append_left _ _ rfl
  · rw [String.data_append, slash_append_eq]
    exact head?_append_left _ _ rfl

theorem posixResolve_head (cwd p : String) :
    (posixResolve cwd p).data.head? = some '/' := by
  simp only [posixResolve]
  split_ifs
  all_goals rfl

theorem cacheDir_head (env : Env) (cwd cacheDirVariable : String) :
    (cacheDir env cwd cacheDirVariable).data.head? = some '/' :=
  posixResolve_head cwd (posixNormalize (getVariable env cacheDirVariable))

theorem pathJoin_abs (R : String) (rest : List String)
    (h : R.data.head? = some '/') :
    (pathJoin (R :: rest)).data.head? = some '/' := by
  have hRne : R ≠ "" := ne_empty_of_head R h
  have hfil : (R :: rest).filter (fun s => !(s == "")) =
      R :: rest.filter (fun s => !(s == "")) := by
    rw [List.filter_cons]
    simp [hRne]
  unfold pathJoin
  rw [hfil]
  have hjoin : (joinSep "/" (R :: rest.filter (fun s => !(s == "")))).data.head? =
      some '/' := by
    cases hrf : rest.filter (fun s => !(s == "")) with
    | nil => simpa [joinSep] using h
    | cons x t =>
      show ((R ++ "/") ++ joinSep "/" (x :: t)).data.head? = some '/'
      rw [String.data_append, String.data_append]
      exact head?_append_left _ _ (head?_append_left _ _ h)
  have hjne : joinSep "/" (R :: rest.filter (fun s => !(s == ""))) ≠ "" :=
    ne_empty_of_head _ hjoin
  rw [if_neg hjne]
  exact posixNormalize_abs _ hjoin

theorem delimitedKeep_eq : delimitedKeep = fun x => !(jsTrim x == "") := by
  funext x
  unfold delimitedKeep
  by_cases h : x = ""
  · subst h; rfl
  · simp [h]

/-! ## Claims -/

/-- C1: the claim says that with the cache-directory variable unset,
`cacheToolDirectory` logs and returns `""` and `findLocalTool` returns
`null` without touching the filesystem.  The code contradicts this (and
its own `if (!cacheRoot)` guard): `getVariableAsPath` sends the empty
variable value through `path.resolve(path.normalize(''))`, which yields
the current working directory — a non-empty absolute path — so the
guard is unreachable, the cache root silently becomes the cwd, and both
operations consult the filesystem below it.  This theorem evaluates the
embedding at the failing input: with the variable unset and cwd
`/work`, the cache root is `/work`, `findLocalTool` returns a real path
found on disk instead of `null`, and `cacheToolDirectory` returns a
non-empty destination under `/work`. -/
theorem claim_C1_cache_root_guard_unreachable :
    cacheDir c1Env "/work" "AGENT_TOOLSDIRECTORY" = "/work" ∧
    cacheDir c1Env "/work" "AGENT_TOOLSDIRECTORY" ≠ "" ∧
    findLocalTool c1Env "/work" "AGENT_TOOLSDIRECTORY" c1Fs "tool" "1.2.3" =
      .ok (some "/work/tool/1.2.3") ∧
    ∃ fs2, cacheToolDirectory c1Env "/work" "AGENT_TOOLSDIRECTORY" c1Fs
      "/src" "tool" "1.2.3" = .ok ("/work/tool/1.2.3", fs2) := by
  refine ⟨by decide, by decide, rfl, ⟨_, rfl⟩⟩

/-- C3: for every key whose transformed environment value is empty or
whitespace-only, `getInput` with `required = true` throws the
missing-input error naming the transformed key; for every key whose
value is non-empty after trimming, `getInput` returns exactly the
trimmed source value (for any `required` flag). -/
theorem claim_C3_required_input (env : Env) (key : String) :
    (jsTrim ((env ("INPUT_" ++ inputKeyTransform key)).getD "") = "" →
      getInput env key true =
        .error ("Input required and not supplied: " ++ inputKeyTransform key)) ∧
    (∀ raw, env ("INPUT_" ++ inputKeyTransform key) = some raw →
      jsTrim raw ≠ "" →
      ∀ required, getInput env key required = .ok (jsTrim raw)) := by
  constructor
  · intro h
    have hval : getVariable env ("INPUT_" ++ inputKeyTransform key) = "" := by
      unfold getVariable
      rw [h]
      rfl
    simp only [getInput]
    rw [hval]
    simp
  · intro raw hraw hne required
    have hval : getVariable env ("INPUT_" ++ inputKeyTransform key) = jsTrim raw := by
      unfold getVariable
      rw [hraw]
      exact jsTrim_idem raw
    simp only [getInput]
    rw [hval]
    have hbeq : (jsTrim raw == "") = false := by
      simp [hne]
    rw [hbeq]
    simp [jsTrim_idem]

/-- C3 witness at concrete inputs: the whitespace-only required input
fails with the transformed key in the message, the non-empty one returns
the trimmed value. -/
theorem claim_C3_required_input_witness :
    getInput c3Env "my key" true = .error "Input required and not supplied: MY_KEY" ∧
    getInput c3Env "other key" true = .ok "x" :=
  ⟨(claim_C3_required_input c3Env "my key").1 (by decide),
   (claim_C3_required_input c3Env "other key").2 " x " (by decide) (by decide) true⟩

/-- C5: `exec` never raises.  For every command, argument list, and
behaviour of the underlying child process, `execRun` is a total function
into `ExecResult`: on process success the result is
`code = 0, error = null` with the captured streams, and on any failure
(non-zero exit, spawn failure, or signal termination, the latter
carrying no exit code) the result holds the underlying code, the
underlying error, and whatever output was captured before the
failure. -/
theorem claim_C5_exec_never_raises (runner : String → SpawnOutcome)
    (cmd : String) (args : List String) :
    (∀ out err, runner (execCmdLine cmd args) = .success out err →
      execRun runner cmd args = ⟨some 0, none, out, err⟩) ∧
    (∀ code msg out err, runner (execCmdLine cmd args) = .failure code msg out err →
      execRun runner cmd args = ⟨code, some msg, out, err⟩) := by
  refine ⟨fun out err h => ?_, fun code msg out err h => ?_⟩ <;>
    (unfold execRun; rw [h])

/-- C5 witness: a succeeding and a failing process, the latter
signal-terminated (no exit code). -/
theorem claim_C5_exec_never_raises_witness :
    execRun (fun _ => .success "out" "err") "true" [] =
      ⟨some 0, none, "out", "err"⟩ ∧
    execRun (fun _ => .failure none "killed" "partial-out" "partial-err") "false" ["-x"] =
      ⟨none, some "killed", "partial-out", "partial-err"⟩ :=
  ⟨(claim_C5_exec_never_raises (fun _ => .success "out" "err") "true" []).1
      "out" "err" rfl,
   (claim_C5_exec_never_raises (fun _ => .failure none "killed" "partial-out" "partial-err")
      "false" ["-x"]).2 none "killed" "partial-out" "partial-err" rfl⟩

/-- C6: each empty required argument of `cacheToolDirectory`
(`tool`, `version`, `sourceDir`, checked in that order) and of
`findLocalTool` (`toolName`, `versionSpec`) throws its own distinct
required-parameter error naming the argument.  The statement quantifies
over every environment and filesystem and the error does not depend on
them: the checks run before any cache-root lookup or filesystem
access. -/
theorem claim_C6_required_parameters (env : Env) (cwd cacheDirVariable : String)
    (fs : FS) (sourceDir tool version toolName versionSpec : String) :
    (tool = "" → cacheToolDirectory env cwd cacheDirVariable fs sourceDir tool version =
      .error "tool is a required parameter") ∧
    (tool ≠ "" → version = "" →
      cacheToolDirectory env cwd cacheDirVariable fs sourceDir tool version =
      .error "version is a required parameter") ∧
    (tool ≠ "" → version ≠ "" → sourceDir = "" →
      cacheToolDirectory env cwd cacheDirVariable fs sourceDir tool version =
      .error "sourceDir is a required parameter") ∧
    (toolName = "" → findLocalTool env cwd cacheDirVariable fs toolName versionSpec =
      .error "toolName is a required parameter") ∧
    (toolName ≠ "" → versionSpec = "" →
      findLocalTool env cwd cacheDirVariable fs toolName versionSpec =
      .error "versionSpec is a required parameter") := by
  refine ⟨?_, ?_, ?_, ?_, ?_⟩ <;> intros <;>
    simp [cacheToolDirectory, findLocalTool, *]

/-- C6 witness: each missing argument at concrete inputs. -/
theorem claim_C6_required_parameters_witness :
    cacheToolDirectory c1Env "/w" "V" emptyFs "/src" "" "1.2.3" =
      .error "tool is a required parameter" ∧
    cacheToolDirectory c1Env "/w" "V" emptyFs "/src" "tool" "" =
      .error "version is a required parameter" ∧
    cacheToolDirectory c1Env "/w" "V" emptyFs "" "tool" "1.2.3" =
      .error "sourceDir is a required parameter" ∧
    findLocalTool c1Env "/w" "V" emptyFs "" "1.2.3" =
      .error "toolName is a required parameter" ∧
    findLocalTool c1Env "/w" "V" emptyFs "tool" "" =
      .error "versionSpec is a required parameter" :=
  ⟨(claim_C6_required_parameters c1Env "/w" "V" emptyFs "/src" "" "1.2.3" "t" "v").1 rfl,
   (claim_C6_required_parameters c1Env "/w" "V" emptyFs "/src" "tool" "" "t" "v").2.1
      (by decide) rfl,
   (claim_C6_required_parameters c1Env "/w" "V" emptyFs "" "tool" "1.2.3" "t" "v").2.2.1
      (by decide) (by decide) rfl,
   (claim_C6_required_parameters c1Env "/w" "V" emptyFs "/src" "tool" "1.2.3" "" "1.2.3").2.2.2.1
      rfl,
   (claim_C6_required_parameters c1Env "/w" "V" emptyFs "/src" "tool" "1.2.3" "tool" "").2.2.2.2
      (by decide) rfl⟩

/-- C9: `getListInput` on the value `"a\nb\n\nc"` returns exactly
`["a", "b", "c"]`; in general it is `getDelimitedInput` with newline as
delimiter, which splits the trimmed input value on the delimiter, drops
the entries that are blank (empty or whitespace-only after trimming),
and keeps the remaining entries in order (the filtered list is a
sublist of the split). -/
theorem claim_C9_list_input (env : Env) (key : String) (required : Bool) :
    getListInput c9Env "list" false = .ok ["a", "b", "c"] ∧
    getListInput env key required = getDelimitedInput env key "\n" required ∧
    (∀ v, getInput env key required = .ok v →
      getListInput env key required =
        .ok ((jsSplit "\n" v).filter (fun x => !(jsTrim x == ""))) ∧
      ((jsSplit "\n" v).filter delimitedKeep).Sublist (jsSplit "\n" v)) := by
  refine ⟨?_, rfl, fun v hv => ⟨?_, List.filter_sublist _⟩⟩
  · simp [getListInput, getDelimitedInput, getInput, c9Env, getVariable, jsTrim,
      trimChars, inputKeyTransform, jsToUpper, jsSplit, jsSplitChars, isPre,
      delimitedKeep, jsWsChar]
  · unfold getListInput getDelimitedInput
    rw [hv, delimitedKeep_eq]
    rfl

/-- C9 witness: the general characterization applied to the spec's
example value. -/
theorem claim_C9_list_input_witness :
    getListInput c9Env "list" false =
      .ok ((jsSplit "\n" "a\nb\n\nc").filter (fun x => !(jsTrim x == ""))) ∧
    ((jsSplit "\n" "a\nb\n\nc").filter delimitedKeep).Sublist
      (jsSplit "\n" "a\nb\n\nc") :=
  (claim_C9_list_input c9Env "list" false).2.2 "a\nb\n\nc" rfl

/-- C10: `directoryExists` and `fileExists` are total boolean probes:
the embedding absorbs every `fs.access`/`fs.stat` failure (missing path
or denied access) into `false`, and the probes return `true` exactly
when the path is accessible and holds a directory (respectively a
regular file). -/
theorem claim_C10_existence_probes_never_throw (fs : FS) (p : String) :
    (directoryExists fs p = true ↔
      fs.denied p = false ∧ fs.entry p = some .dir) ∧
    (fileExists fs p = true ↔
      fs.denied p = false ∧ fs.entry p = some .file) := by
  unfold directoryExists fileExists fsAccess fsStat
  by_cases hd : fs.denied p <;> cases he : fs.entry p <;> simp [hd, he]

theorem splitOnCh_append (p prev : String) (h : ':' ∉ p.data) :
    splitOnCh ':' ((p ++ ":") ++ prev) = p :: splitOnCh ':' prev := by
  unfold splitOnCh
  have hd : ((p ++ ":") ++ prev).data = p.data ++ ':' :: prev.data := by
    simp [String.data_append]
  rw [hd, splitCharList_append ':' p.data prev.data h]
  rfl

/-- C7: `which` returns the first PATH match resolved to a canonical
absolute path when one exists, and throws the not-found error naming the
tool when `PATH` is unset or no directory yields a match.  The first
three conjuncts settle the unset-PATH and the generic hit/miss cases;
the last shows that a hit in directory `d`, with every earlier PATH
directory missing the tool, resolves `d`'s candidate. -/
theorem claim_C7_which_resolution (env : Env) (isExec : String → Bool)
    (cwd tool : String) :
    (env "PATH" = none →
      which env isExec cwd tool =
        .error ("Unable to locate executable file: " ++ tool)) ∧
    (∀ p, lookPath env isExec tool = some p →
      which env isExec cwd tool = .ok (posixResolve cwd p)) ∧
    (lookPath env isExec tool = none →
      which env isExec cwd tool =
        .error ("Unable to locate executable file: " ++ tool)) ∧
    (∀ P ds1 d ds2, env "PATH" = some P →
      splitOnCh ':' P = ds1 ++ d :: ds2 →
      (∀ d0 ∈ ds1, isExec ((d0 ++ "/") ++ tool) = false) →
      isExec ((d ++ "/") ++ tool) = true →
      which env isExec cwd tool = .ok (posixResolve cwd ((d ++ "/") ++ tool))) := by
  refine ⟨?_, ?_, ?_, ?_⟩
  · intro h
    have hl : lookPath env isExec tool = none := by
      unfold lookPath
      rw [h, Option.none_bind]
    unfold which
    rw [hl]
  · intro p hp
    unfold which
    rw [hp]
  · intro hl
    unfold which
    rw [hl]
  · intro P ds1 d ds2 hP hsplit hmiss hd
    have hl : lookPath env isExec tool = some ((d ++ "/") ++ tool) := by
      unfold lookPath
      rw [hP, Option.some_bind, hsplit]
      exact findSome?_append_first _ ds1 d ds2 _
        (fun x hx => by simp [hmiss x hx]) (by simp [hd])
    unfold which
    rw [hl]

/-- C7 witness: the tool missing from `/usr/bin` is found in `/bin` and
resolved; an empty environment yields the not-found error. -/
theorem claim_C7_which_resolution_witness :
    which c7Env c7Exec "/w" "tool" = .ok (posixResolve "/w" (("/bin" ++ "/") ++ "tool")) ∧
    which c1Env c7Exec "/w" "tool" = .error ("Unable to locate executable file: " ++ "tool") :=
  ⟨(claim_C7_which_resolution c7Env c7Exec "/w" "tool").2.2.2 "/usr/bin:/bin"
      ["/usr/bin"] "/bin" [] rfl (by decide) (by decide) (by decide),
   (claim_C7_which_resolution c1Env c7Exec "/w" "tool").1 rfl⟩

/-- C8: `addPath(p)` sets the platform PATH variable (`Path` on win32,
`PATH` elsewhere) to `p`, then the platform delimiter, then the previous
value, and defensively sets the literal `Path` variable to the same new
value; afterwards the executable locator finds a tool that exists only
under `p` (shown for the posix platform, whose locator splits on
`:`). -/
theorem claim_C8_addPath_prepends (isWin32 : Bool) (env : Env) (p prev : String)
    (hprev : env (if isWin32 then "Path" else "PATH") = some prev) :
    addPath isWin32 env p (if isWin32 then "Path" else "PATH") =
      some ((p ++ (if isWin32 then ";" else ":")) ++ prev) ∧
    addPath isWin32 env p "Path" =
      some ((p ++ (if isWin32 then ";" else ":")) ++ prev) ∧
    (isWin32 = false → ':' ∉ p.data →
      ∀ isExec tool, isExec ((p ++ "/") ++ tool) = true →
        lookPath (addPath isWin32 env p) isExec tool = some ((p ++ "/") ++ tool)) := by
  cases isWin32 with
  | true =>
    simp only [if_true] at hprev ⊢
    refine ⟨?_, ?_, fun h => by cases h⟩ <;> simp [addPath, hprev]
  | false =>
    simp only [if_false, Bool.false_eq_true] at hprev ⊢
    have henv : addPath false env p "PATH" = some ((p ++ ":") ++ prev) := by
      simp [addPath, hprev]
    refine ⟨henv, by simp [addPath, hprev], ?_⟩
    intro _ hcolon isExec tool hex
    unfold lookPath
    rw [henv, Option.some_bind, splitOnCh_append p prev hcolon]
    simp [List.findSome?, hex]

/-- C8 witness on the posix platform: prepending `/new/bin` updates both
variables and makes a tool that exists only under `/new/bin` findable. -/
theorem claim_C8_addPath_prepends_witness :
    addPath false c8Env "/new/bin" "PATH" = some (("/new/bin" ++ ":") ++ "/usr/bin") ∧
    addPath false c8Env "/new/bin" "Path" = some (("/new/bin" ++ ":") ++ "/usr/bin") ∧
    lookPath (addPath false c8Env "/new/bin") (fun q => q == "/new/bin/tool") "tool" =
      some (("/new/bin" ++ "/") ++ "tool") := by
  have h := claim_C8_addPath_prepends false c8Env "/new/bin" "/usr/bin" rfl
  exact ⟨h.1, h.2.1,
    h.2.2 rfl (by decide) (fun q => q == "/new/bin/tool") "tool" (by decide)⟩

theorem expandChars_plain (env : Env) (c : Char) (rest : List Char)
    (hc : c ≠ '$') :
    expandChars env (c :: rest) = c :: expandChars env rest := by
  rw [expandChars.eq_6 env c rest (fun _ _ h _ => hc h) (fun h _ => hc h)
    (fun _ _ h _ => hc h) (fun h _ => hc h)]

theorem expandChars_braced (env : Env) (c : Char) (nm rest : List Char)
    (hc : isNameStart c = true) (hnm : nm.all isNameCh = true) :
    expandChars env ('$' :: '{' :: c :: (nm ++ '}' :: rest)) =
      expandLookup env (c :: nm) ++ expandChars env rest := by
  have hstop : ∀ x xs, ('}' : Char) :: rest = x :: xs → isNameCh x = false := by
    intro x xs h
    cases h
    decide
  have hdw : (nm ++ '}' :: rest).dropWhile isNameCh = '}' :: rest :=
    dropWhile_append_stop isNameCh nm ('}' :: rest) hnm hstop
  have htw : (nm ++ '}' :: rest).takeWhile isNameCh = nm :=
    takeWhile_append_stop isNameCh nm ('}' :: rest) hnm (fun x xs h => by cases h; decide)
  simp only [expandChars, hc, if_true, hdw, htw, List.head?_cons, List.tail_cons]

theorem expandChars_unbraced (env : Env) (c : Char) (nm rest : List Char)
    (hc : isNameStart c = true) (hnm : nm.all isNameCh = true)
    (hrest : ∀ x xs, rest = x :: xs → isNameCh x = false) :
    expandChars env ('$' :: c :: (nm ++ rest)) =
      expandLookup env (c :: nm) ++ expandChars env rest := by
  have hcb : c ≠ '{' := by
    intro h
    rw [h] at hc
    simp [isNameStart] at hc
  have hdw : (nm ++ rest).dropWhile isNameCh = rest :=
    dropWhile_append_stop isNameCh nm rest hnm hrest
  have htw : (nm ++ rest).takeWhile isNameCh = nm :=
    takeWhile_append_stop isNameCh nm rest hnm hrest
  cases hn : nm ++ rest with
  | nil =>
    rcases List.append_eq_nil.mp hn with ⟨h1, h2⟩
    subst h1; subst h2
    rw [expandChars.eq_4 env c [] (fun _ _ _ h => List.noConfusion h) (fun h _ => hcb h)]
    simp [hc, expandChars]
  | cons y ys =>
    rw [expandChars.eq_4 env c (y :: ys) (fun _ _ h _ => hcb h) (fun h _ => hcb h)]
    rw [hn] at hdw htw
    rw [hdw, htw, if_pos hc]

theorem expandChars_malformed (env : Env) (rest : List Char) :
    expandChars env ('$' :: '{' :: '}' :: rest) =
      '$' :: '{' :: '}' :: expandChars env rest := by
  have h1 : expandChars env ('$' :: '{' :: '}' :: rest) =
      '$' :: expandChars env ('{' :: '}' :: rest) := by
    rw [expandChars.eq_2 env '}' rest, if_neg (by decide : ¬isNameStart '}' = true)]
  rw [h1, expandChars_plain env '{' _ (by decide),
    expandChars_plain env '}' _ (by decide)]

/-- C2 counterexample: the claim says malformed references such as
`${}` are replaced with the empty string.  They are not: the source
regex requires at least one name character inside the braces, so it
never matches `${}` and the replacement pass copies the three characters
through verbatim.  `getExpandedString` on the pattern consisting of the
characters `$`, `{`, `}` returns that same pattern, which is not the
empty string. -/
theorem claim_C2_counterexample :
    getExpandedString c2Env (String.mk ['$', '{', '}']) = String.mk ['$', '{', '}'] ∧
    getExpandedString c2Env (String.mk ['$', '{', '}']) ≠ "" := by
  have h : getExpandedString c2Env (String.mk ['$', '{', '}']) =
      String.mk ['$', '{', '}'] := by
    unfold getExpandedString
    rw [show (String.mk ['$', '{', '}']).data = '$' :: '{' :: '}' :: [] from rfl,
      expandChars_malformed c2Env [], expandChars.eq_1]
  refine ⟨h, ?_⟩
  rw [h]
  decide

/-- C2 (amended): `getExpandedString` replaces each `$NAME` and
`${NAME}` reference with the environment value of the uppercased name,
an unset variable contributing the empty string; a malformed reference
such as `${}` is left verbatim in the output (not replaced with the
empty string); and no recursive expansion happens — a substituted value
is appended as-is and only the remainder of the pattern is scanned, so
`$A` with `A = "$B"` yields the literal `"$B"`.  The last conjunct is
the spec's own example. -/
theorem claim_C2_amended_expansion (env : Env) :
    (∀ pattern, getExpandedString env pattern = String.mk (expandChars env pattern.data)) ∧
    (∀ c nm rest, isNameStart c = true → nm.all isNameCh = true →
      expandChars env ('$' :: '{' :: c :: (nm ++ '}' :: rest)) =
        ((env (jsToUpper (String.mk (c :: nm)))).getD "").data ++ expandChars env rest) ∧
    (∀ c nm rest, isNameStart c = true → nm.all isNameCh = true →
      (∀ x xs, rest = x :: xs → isNameCh x = false) →
      expandChars env ('$' :: c :: (nm ++ rest)) =
        ((env (jsToUpper (String.mk (c :: nm)))).getD "").data ++ expandChars env rest) ∧
    (∀ rest, expandChars env ('$' :: '{' :: '}' :: rest) =
      '$' :: '{' :: '}' :: expandChars env rest) ∧
    getExpandedString c2RecEnv "$A" = "$B" ∧
    getExpandedString c2ExampleEnv "$HOME/${USER}/x" = "/h/u/x" := by
  refine ⟨fun _ => rfl,
    fun c nm rest hc hnm => expandChars_braced env c nm rest hc hnm,
    fun c nm rest hc hnm hr => expandChars_unbraced env c nm rest hc hnm hr,
    fun rest => expandChars_malformed env rest, ?_, ?_⟩
  · unfold getExpandedString
    have h1 := expandChars_unbraced c2RecEnv 'A' [] [] (by decide) rfl
      (fun _ _ h => by cases h)
    rw [show ("$A" : String).data = '$' :: 'A' :: ([] ++ []) from rfl, h1,
      expandChars.eq_1]
    decide
  · unfold getExpandedString
    have hu := expandChars_unbraced c2ExampleEnv 'H' ['O', 'M', 'E']
      ('/' :: '$' :: '{' :: 'U' :: 'S' :: 'E' :: 'R' :: '}' :: '/' :: 'x' :: [])
      (by decide) (by decide) (fun x xs h => by cases h; decide)
    rw [show ("$HOME/${USER}/x" : String).data = '$' :: 'H' :: (['O', 'M', 'E'] ++
        ('/' :: '$' :: '{' :: 'U' :: 'S' :: 'E' :: 'R' :: '}' :: '/' :: 'x' :: []))
      from rfl, hu, expandChars_plain c2ExampleEnv '/' _ (by decide)]
    rw [show ('$' :: '{' :: 'U' :: 'S' :: 'E' :: 'R' :: '}' :: '/' :: 'x' :: ([] : List Char)) =
      '$' :: '{' :: 'U' :: (['S', 'E', 'R'] ++ '}' :: '/' :: 'x' :: []) from rfl]
    rw [expandChars_braced c2ExampleEnv 'U' ['S', 'E', 'R'] ('/' :: 'x' :: [])
      (by decide) (by decide)]
    rw [expandChars_plain c2ExampleEnv '/' _ (by decide),
      expandChars_plain c2ExampleEnv 'x' _ (by decide), expandChars.eq_1]
    decide

/-- C2 witness: the braced-substitution conjunct applied at a concrete
name and environment. -/
theorem claim_C2_amended_expansion_witness :
    expandChars c2ExampleEnv ('$' :: '{' :: 'U' :: (['S', 'E', 'R'] ++ '}' :: [])) =
      ((c2ExampleEnv (jsToUpper (String.mk ('U' :: ['S', 'E', 'R'])))).getD "").data ++
        expandChars c2ExampleEnv [] :=
  (claim_C2_amended_expansion c2ExampleEnv).2.1 'U' ['S', 'E', 'R'] []
    (by decide) (by decide)

theorem cacheStepFs_denied (fs : FS) (sourceDir destPath : String) :
    (cacheStepFs fs sourceDir destPath).denied = fs.denied := by
  unfold cacheStepFs
  rw [cpTreeFs_denied, mkdirpFs_denied]
  by_cases h : directoryExists fs destPath <;> simp [h, removeDirFs_denied]

theorem cacheStepFs_entry_dest (fs : FS) (src destPath : String)
    (hout : relTo destPath src = none) (hout2 : relTo src destPath = none) :
    (cacheStepFs fs src destPath).entry destPath = fs.entry src := by
  unfold cacheStepFs
  rw [cpTreeFs_entry_inside _ _ _ _ "" (relTo_self destPath)]
  rw [String.append_empty]
  rw [mkdirpFs_entry_outside _ _ _ hout2]
  by_cases h : directoryExists fs destPath
  · simp only [h, if_true]
    exact removeDirFs_entry_outside _ _ _ hout
  · simp [h]

theorem cacheStepFs_entry_under (fs : FS) (src destPath s : String)
    (hout : relTo destPath src = none) (hout2 : relTo src destPath = none) :
    (cacheStepFs fs src destPath).entry ((destPath ++ "/") ++ s) =
      fs.entry ((src ++ "/") ++ s) := by
  unfold cacheStepFs
  rw [cpTreeFs_entry_inside _ _ _ _ ("/" ++ s) (relTo_append destPath s)]
  rw [show src ++ ("/" ++ s) = (src ++ "/") ++ s from (String.append_assoc src "/" s).symm]
  rw [mkdirpFs_entry_outside _ _ _ (relTo_lower_right destPath src s hout2)]
  by_cases h : directoryExists fs destPath
  · simp only [h, if_true]
    exact removeDirFs_entry_outside _ _ _ (relTo_lower_left destPath src s hout hout2)
  · simp [h]

theorem directoryExists_intro (fs : FS) (p : String)
    (h1 : fs.denied p = false) (h2 : fs.entry p = some .dir) :
    directoryExists fs p = true := by
  unfold directoryExists fsAccess fsStat
  simp [h1, h2]

/-- C4: with the cache root configured (which the embedding shows always
holds: `cacheDir` produces an absolute path), non-empty `tool`,
`version` and `sourceDir`, a source directory that exists and whose tree
is disjoint from the destination tree, and an accessible destination, a
successful `cacheToolDirectory` returns the destination
`<cacheRoot>/<tool>/<cleanedVersion>` and a subsequent `findLocalTool`
with the same tool and version (cleaned by the identical
`semver.clean(v) || v` fallback) returns exactly that path; the path is
absolute (leading `/`), and every entry below it equals the
corresponding entry below `sourceDir` at caching time. -/
theorem claim_C4_cache_roundtrip (env : Env) (cwd cacheDirVariable : String)
    (fs : FS) (sourceDir tool version : String)
    (ht : tool ≠ "") (hv : version ≠ "") (hs : sourceDir ≠ "")
    (hout : relTo (cacheDestPath env cwd cacheDirVariable tool version) sourceDir = none)
    (hout2 : relTo sourceDir (cacheDestPath env cwd cacheDirVariable tool version) = none)
    (hsrc : fs.entry sourceDir = some .dir)
    (hden : fs.denied (cacheDestPath env cwd cacheDirVariable tool version) = false) :
    cacheToolDirectory env cwd cacheDirVariable fs sourceDir tool version =
      .ok (cacheDestPath env cwd cacheDirVariable tool version,
        cacheStepFs fs sourceDir (cacheDestPath env cwd cacheDirVariable tool version)) ∧
    findLocalTool env cwd cacheDirVariable
      (cacheStepFs fs sourceDir (cacheDestPath env cwd cacheDirVariable tool version))
      tool version =
      .ok (some (cacheDestPath env cwd cacheDirVariable tool version)) ∧
    (cacheDestPath env cwd cacheDirVariable tool version).data.head? = some '/' ∧
    ∀ s, (cacheStepFs fs sourceDir
        (cacheDestPath env cwd cacheDirVariable tool version)).entry
        ((cacheDestPath env cwd cacheDirVariable tool version ++ "/") ++ s) =
      fs.entry ((sourceDir ++ "/") ++ s) := by
  have hRhead := cacheDir_head env cwd cacheDirVariable
  have hRne : cacheDir env cwd cacheDirVariable ≠ "" := ne_empty_of_head _ hRhead
  have hD : cacheDestPath env cwd cacheDirVariable tool version =
      pathJoin [cacheDir env cwd cacheDirVariable, tool,
        (semverClean version).getD version] := rfl
  refine ⟨?_, ?_, ?_, ?_⟩
  · simp only [cacheToolDirectory]
    rw [if_neg ht, if_neg hv, if_neg hs, if_neg hRne, ← hD]
  · have hden3 : (cacheStepFs fs sourceDir
        (cacheDestPath env cwd cacheDirVariable tool version)).denied
        (cacheDestPath env cwd cacheDirVariable tool version) = false := by
      rw [cacheStepFs_denied]
      exact hden
    have hent3 : (cacheStepFs fs sourceDir
        (cacheDestPath env cwd cacheDirVariable tool version)).entry
        (cacheDestPath env cwd cacheDirVariable tool version) = some .dir := by
      rw [cacheStepFs_entry_dest fs sourceDir _ hout hout2]
      exact hsrc
    have hdirex := directoryExists_intro _ _ hden3 hent3
    simp only [findLocalTool]
    rw [if_neg ht, if_neg hv, if_neg hRne]
    rw [← hD, hdirex]
    simp
  · rw [hD]
    exact pathJoin_abs _ _ hRhead
  · intro s
    exact cacheStepFs_entry_under fs sourceDir _ s hout hout2

/-- C4 witness: caching `/src` as `tool@1.2.3` under cache root `/cache`
and looking it up again round-trips through `/cache/tool/1.2.3`. -/
theorem claim_C4_cache_roundtrip_witness :
    cacheToolDirectory c4Env "/w" "CACHE_DIR" c4Fs "/src" "tool" "1.2.3" =
      .ok (cacheDestPath c4Env "/w" "CACHE_DIR" "tool" "1.2.3",
        cacheStepFs c4Fs "/src" (cacheDestPath c4Env "/w" "CACHE_DIR" "tool" "1.2.3")) ∧
    findLocalTool c4Env "/w" "CACHE_DIR"
      (cacheStepFs c4Fs "/src" (cacheDestPath c4Env "/w" "CACHE_DIR" "tool" "1.2.3"))
      "tool" "1.2.3" =
      .ok (some (cacheDestPath c4Env "/w" "CACHE_DIR" "tool" "1.2.3")) ∧
    (cacheDestPath c4Env "/w" "CACHE_DIR" "tool" "1.2.3").data.head? = some '/' ∧
    ∀ s, (cacheStepFs c4Fs "/src"
        (cacheDestPath c4Env "/w" "CACHE_DIR" "tool" "1.2.3")).entry
        ((cacheDestPath c4Env "/w" "CACHE_DIR" "tool" "1.2.3" ++ "/") ++ s) =
      c4Fs.entry (("/src" ++ "/") ++ s) :=
  claim_C4_cache_roundtrip c4Env "/w" "CACHE_DIR" c4Fs "/src" "tool" "1.2.3"
    (by decide) (by decide) (by decide) (by decide) (by decide) (by decide) (by decide)

end BuildAgent
